import Mathlib

/-!
Verification of the record-reconciliation core of the quotes widget
(`src/dom-manipulation/script.js`, together with the duplicate copy in
`src/unnamed/part_000`).  The definitions below are a shallow embedding of
the JavaScript functions `mergeServerIntoLocal`, `postQuoteToServer`,
`syncQuotes` and `importFromJsonFile` (the later, authoritative definitions
in `script.js`, lines 979-1059 and 501-527).  Mutable JS objects held in
the `quotes` array are modelled by positions in a Lean list: reading a
record reads the current list entry, `Object.assign` becomes `List.set`.
-/

namespace QuotesSync

/-- A quote record as the sync layer sees it: `{ id, text, category, _dirty,
_src }`.  The `updatedAt` field (always `Date.now()`, a wall-clock value that
no code path ever compares) is not modelled.  A JS field that is absent reads
as `undefined`, which we model as `""` (for the strings) or `false` (for the
dirty flag). -/
structure Record where
  id : String
  text : String
  category : String
  dirty : Bool
  src : String
deriving DecidableEq, Repr, Inhabited

/-- `{ id: sq.id, server: sq, local: { ...local } }` pushed by
`mergeServerIntoLocal` (script.js line 1015): the spread copies the local
record's pre-overwrite field values. -/
structure Conflict where
  id : String
  server : Record
  localSnap : Record
deriving DecidableEq, Repr, Inhabited

/-- Models `new Map(quotes.map(q => [q.id, q]))` followed by `.get(s)`
(script.js line 1006).  A JS `Map` built from a pair list keeps the **last**
entry for a duplicated key, so this returns the index of the last record in
the list whose id is `s`. -/
def findLastIdx : List Record → String → Option Nat
  | [], _ => none
  | q :: t, s =>
    match findLastIdx t s with
    | some j => some (j + 1)
    | none => if q.id = s then some 0 else none

/-- One iteration of the `serverQuotes.forEach(sq => ...)` loop of
`mergeServerIntoLocal` (script.js lines 1009-1020).  `byId` is the index
built once before the loop, so it always refers to positions of the
pre-merge store; records pushed during the loop are not in it.  The JS
`differs` test is `local.text !== sq.text || (local.category||"") !==
(sq.category||"")`; `x || ""` is the identity on strings, so it is a plain
field comparison here.  On a conflict `Object.assign(local, sq)` overwrites
every field of the stored record with `sq`'s fields (the ids are equal), so
it is `List.set i sq`; on a no-diff hit only `_dirty` and `_src` change. -/
def mergeStep (byId : String → Option Nat) :
    List Record × List Conflict → Record → List Record × List Conflict
  | (qs, cs), sq =>
    match byId sq.id with
    | none => (qs ++ [sq], cs)
    | some i =>
      let loc := qs.getD i default
      if loc.text ≠ sq.text ∨ loc.category ≠ sq.category then
        (qs.set i sq, cs ++ [⟨sq.id, sq, loc⟩])
      else
        (qs.set i { loc with dirty := false, src := "server" }, cs)

/-- `mergeServerIntoLocal(serverQuotes)` (script.js lines 1005-1020): fold
the upsert loop over the snapshot, starting from the current store and an
empty conflict list.  Returns the final store and the conflicts collected by
this call. -/
def mergeServerIntoLocal (serverQuotes quotes : List Record) :
    List Record × List Conflict :=
  serverQuotes.foldl (mergeStep (findLastIdx quotes)) (quotes, [])

/-- The conflict-log side effect of `mergeServerIntoLocal` (script.js lines
1022-1026): `if (conflicts.length) localStorage.setItem(LS_CONFLICTS,
JSON.stringify(conflicts))`.  The `setItem` call **replaces** the stored
list with exactly this merge's conflicts; when no conflict occurred the
write is skipped and the stored log is untouched. -/
def updateConflictLog (log newConflicts : List Conflict) : List Conflict :=
  if newConflicts = [] then log else newConflicts

/-- Network outcome of one `postQuoteToServer` call: the `fetch` either
fails (`!res.ok` throws, the record is untouched) or succeeds, in which case
`payloadId` stands for the string interpolated by
`quote.id = srv-(payload.id || quote.id)` (script.js line 1000). -/
inductive PushOutcome where
  | fail
  | success (payloadId : String)
deriving DecidableEq, Repr

/-- The mutation `postQuoteToServer` performs on its record (script.js lines
996-1001): on success `_dirty` is cleared, `_src` becomes `"server"`, and
the id is renamed into the `srv-` namespace unless it already is there.
On failure the function throws before touching the record. -/
def applyPush (o : PushOutcome) (q : Record) : Record :=
  match o with
  | .fail => q
  | .success pid =>
    { q with
        dirty := false
        src := "server"
        id := if q.id.startsWith "srv-" then q.id else "srv-" ++ pid }

/-- The PUSHING phase of `syncQuotes` (script.js lines 1037-1041):
`quotes.filter(q => q._dirty)` selects the dirty records, and
`Promise.allSettled(dirty.map(q => postQuoteToServer(q)))` runs every push
and waits for all outcomes, so one rejection never stops the others.  Each
record is mutated in place, so the store keeps its length and order.
`out i` is the network outcome for the record at store position `i`; clean
records are never pushed. -/
def pushPhaseFrom (out : Nat → PushOutcome) : Nat → List Record → List Record
  | _, [] => []
  | i, q :: t =>
    (if q.dirty then applyPush (out i) q else q) :: pushPhaseFrom out (i + 1) t

/-- The whole PUSHING phase starting at store position 0. -/
def pushPhase (out : Nat → PushOutcome) (quotes : List Record) : List Record :=
  pushPhaseFrom out 0 quotes

/-- The durable state `syncQuotes` operates on: the quotes array (persisted
by `saveQuotes`) and the conflict log (persisted under `LS_CONFLICTS`). -/
structure SyncState where
  quotes : List Record
  conflictLog : List Conflict
deriving DecidableEq, Repr

/-- `syncQuotes()` (script.js lines 1035-1047): push dirty records and save,
then `fetchQuotesFromServer`, then `mergeServerIntoLocal`.  `fetchResult =
none` models the fetch rejecting (`!res.ok` throws in
`fetchQuotesFromServer`, line 981): `syncQuotes` has no catch around it, so
the cycle stops there — the pushes already applied and saved stand, no merge
runs, the conflict log is untouched, and the returned flag `true` records
that the cycle failed (the promise rejects; the duplicate copy in
`src/unnamed/part_000` catches it and reports via a toast). -/
def syncQuotes (out : Nat → PushOutcome) (fetchResult : Option (List Record))
    (st : SyncState) : SyncState × Bool :=
  let pushed := pushPhase out st.quotes
  match fetchResult with
  | none => ({ quotes := pushed, conflictLog := st.conflictLog }, true)
  | some snap =>
    let m := mergeServerIntoLocal snap pushed
    ({ quotes := m.1, conflictLog := updateConflictLog st.conflictLog m.2 }, false)

/-- One element of a parsed import batch, as the cleaning pass of
`importFromJsonFile` (script.js lines 509-511) classifies it:
`valid` when `x && typeof x.text === "string"` holds (carrying the raw
`text` and `category` strings; a falsy/absent category reads as `""`),
`invalid` otherwise. -/
inductive ImportEntry where
  | valid (text category : String)
  | invalid
deriving DecidableEq, Repr

/-- The result of `JSON.parse` on the imported file: either not an array
(line 508 throws) or an array of entries. -/
inductive ImportInput where
  | notArray
  | array (entries : List ImportEntry)
deriving DecidableEq, Repr

/-- The `.filter(...).map(...)` cleaning step (script.js lines 509-511): a
valid entry becomes `{ text: text.trim(), category: category.trim() }`; the
produced object has no `id`, `_dirty` or `_src` field, modelled as the
defaults. -/
def cleanEntry : ImportEntry → Option Record
  | .valid t c => some { id := "", text := t.trim, category := c.trim, dirty := false, src := "" }
  | .invalid => none

/-- `importFromJsonFile` (script.js lines 501-527), restricted to its effect
on the store: a non-array input throws before any mutation; an array is
cleaned, an empty cleaned list throws before any mutation; otherwise
`quotes.push(...cleaned)` appends every cleaned entry.  The boolean reports
whether the success path (`alert("Quotes imported successfully!")`) ran. -/
def importFromJsonFile (input : ImportInput) (quotes : List Record) :
    List Record × Bool :=
  match input with
  | .notArray => (quotes, false)
  | .array entries =>
    let cleaned := entries.filterMap cleanEntry
    if cleaned = [] then (quotes, false) else (quotes ++ cleaned, true)

/-- Follows the spec's words (section 7, `MalformedImportError`: the batch
does not conform to the expected array-of-records shape): a batch is
malformed when it is not an array, or when some entry of the array is not a
well-formed record.  This is the spec-side notion used to state claim C9;
the code's own rejection condition is narrower. -/
def specMalformedBatch (input : ImportInput) : Prop :=
  input = .notArray ∨ ∃ es, input = .array es ∧ ImportEntry.invalid ∈ es

/-- Characterisation of what one merge does to a record of the pre-merge
store, valid when ids are unique (proved below): the first snapshot record
with the same id decides its fate. -/
def applyServer (snap : List Record) (q : Record) : Record :=
  match snap.find? (fun sq => sq.id == q.id) with
  | none => q
  | some sq =>
    if q.text == sq.text && q.category == sq.category then
      { q with dirty := false, src := "server" }
    else sq

/-- `true` when no record of `qs` carries `sq`'s id (so the merge appends
`sq` as a new record). -/
def absentFrom (qs : List Record) (sq : Record) : Bool :=
  qs.all (fun q => q.id != sq.id)

/-- Closed form of the post-merge store under unique ids: pre-merge records
updated in place, then the genuinely new snapshot records in snapshot
order. -/
def mergeStoreSpec (snap qs : List Record) : List Record :=
  qs.map (applyServer snap) ++ snap.filter (absentFrom qs)

/-- Closed form of the conflicts of one merge under unique ids: one entry
per snapshot record whose id exists locally with a differing text or
category, carrying the pre-merge local record. -/
def conflictsSpec (snap qs : List Record) : List Conflict :=
  snap.filterMap (fun sq =>
    match qs.find? (fun q => q.id == sq.id) with
    | none => none
    | some q =>
      if q.text == sq.text && q.category == sq.category then none
      else some ⟨sq.id, sq, q⟩)

theorem findLastIdx_eq_none_iff (qs : List Record) (s : String) :
    findLastIdx qs s = none ↔ ∀ q ∈ qs, q.id ≠ s := by
  induction qs with
  | nil => simp [findLastIdx]
  | cons q t ih =>
    simp only [findLastIdx]
    cases h : findLastIdx t s with
    | some j =>
      have hex : ¬ (∀ q' ∈ t, q'.id ≠ s) := fun hall => by
        rw [ih.mpr hall] at h; cases h
      constructor
      · intro hc; cases hc
      · intro hall; exact absurd (fun q' hq' => hall q' (List.mem_cons_of_mem _ hq')) hex
    | none =>
      by_cases hq : q.id = s
      · simp only [hq, if_pos rfl]
        constructor
        · intro hc; cases hc
        · intro hall; exact absurd hq (hall q (List.mem_cons_self _ _))
      · simp only [if_neg hq]
        constructor
        · intro _ q' hq'
          rcases List.mem_cons.mp hq' with rfl | hmem
          · exact hq
          · exact ih.mp h q' hmem
        · intro _; trivial

theorem findLastIdx_some (qs : List Record) (s : String) (i : Nat)
    (h : findLastIdx qs s = some i) : ∃ q, qs[i]? = some q ∧ q.id = s := by
  induction qs generalizing i with
  | nil => simp [findLastIdx] at h
  | cons q t ih =>
    simp only [findLastIdx] at h
    cases h' : findLastIdx t s with
    | some j =>
      rw [h'] at h
      obtain rfl : j + 1 = i := by injection h
      obtain ⟨r, hr, hid⟩ := ih j h'
      exact ⟨r, by simpa using hr, hid⟩
    | none =>
      rw [h'] at h
      by_cases hq : q.id = s
      · simp only [hq, if_pos rfl] at h
        obtain rfl : 0 = i := by injection h
        exact ⟨q, by simp, hq⟩
      · simp [hq] at h

theorem set_append_left (u e : List Record) (i : Nat) (v : Record)
    (h : i < u.length) : (u ++ e).set i v = u.set i v ++ e := by
  induction u generalizing i with
  | nil => cases h
  | cons a t ih =>
    cases i with
    | zero => simp
    | succ n => simp only [List.cons_append, List.set_cons_succ]
                rw [ih n (by simpa using h)]

theorem absentFrom_eq_true_iff (qs : List Record) (sq : Record) :
    absentFrom qs sq = true ↔ ∀ q ∈ qs, q.id ≠ sq.id := by
  simp [absentFrom, List.all_eq_true]

theorem mergeFold_frame (qs snap : List Record) :
    ∀ (u e : List Record) (cs : List Conflict),
    u.length = qs.length →
    (∀ (i : Nat) (q : Record), qs[i]? = some q → ∃ r, u[i]? = some r ∧ r.id = q.id) →
    ∃ u',
      (snap.foldl (mergeStep (findLastIdx qs)) (u ++ e, cs)).1
        = u' ++ (e ++ snap.filter (absentFrom qs))
      ∧ u'.length = qs.length
      ∧ (∀ (i : Nat) (q : Record), qs[i]? = some q → ∃ r, u'[i]? = some r ∧ r.id = q.id)
      ∧ (∀ (i : Nat) (q : Record), qs[i]? = some q → (∀ sq ∈ snap, sq.id ≠ q.id) → u'[i]? = u[i]?) := by
  induction snap with
  | nil =>
    intro u e cs hlen hids
    exact ⟨u, by simp, hlen, hids, fun _ _ _ _ => rfl⟩
  | cons sq rest ih =>
    intro u e cs hlen hids
    rw [List.foldl_cons]
    cases hfind : findLastIdx qs sq.id with
    | none =>
      have habs : absentFrom qs sq = true :=
        (absentFrom_eq_true_iff qs sq).mpr ((findLastIdx_eq_none_iff qs sq.id).mp hfind)
      have hstep : mergeStep (findLastIdx qs) (u ++ e, cs) sq = (u ++ (e ++ [sq]), cs) := by
        simp [mergeStep, hfind, List.append_assoc]
      rw [hstep]
      obtain ⟨u', h1, h2, h3, h4⟩ := ih u (e ++ [sq]) cs hlen hids
      refine ⟨u', ?_, h2, h3, ?_⟩
      · rw [h1, List.filter_cons, if_pos habs]
        simp [List.append_assoc]
      · intro i q hq hnot
        exact h4 i q hq (fun sq' h' => hnot sq' (List.mem_cons_of_mem _ h'))
    | some j =>
      obtain ⟨r, hr, hrid⟩ := findLastIdx_some qs sq.id j hfind
      have hj : j < qs.length := (List.getElem?_eq_some.mp hr).1
      have hju : j < u.length := hlen ▸ hj
      obtain ⟨ru, hru, hruid⟩ := hids j r hr
      have hloc : (u ++ e).getD j default = ru := by
        rw [List.getD_eq_getElem?_getD, List.getElem?_append_left hju, hru]
        rfl
      have habs : absentFrom qs sq = false := by
        rw [← Bool.not_eq_true, absentFrom_eq_true_iff]
        push_neg
        exact ⟨r, List.getElem?_mem hr, by rw [hrid]⟩
      by_cases hdif : ru.text ≠ sq.text ∨ ru.category ≠ sq.category
      · have hstep : mergeStep (findLastIdx qs) (u ++ e, cs) sq
            = (u.set j sq ++ e, cs ++ [⟨sq.id, sq, ru⟩]) := by
          simp only [mergeStep, hfind, hloc]
          rw [if_pos hdif, set_append_left u e j sq hju]
        rw [hstep]
        have hlen' : (u.set j sq).length = qs.length := by simp [hlen]
        have hids' : ∀ (i : Nat) (q : Record), qs[i]? = some q → ∃ r', (u.set j sq)[i]? = some r' ∧ r'.id = q.id := by
          intro i q hq
          by_cases hij : j = i
          · subst hij
            obtain rfl : r = q := by rw [hr] at hq; injection hq
            refine ⟨sq, ?_, hrid.symm ▸ rfl⟩
            rw [List.getElem?_set_self', hru]
            rfl
          · obtain ⟨r', h', hid'⟩ := hids i q hq
            exact ⟨r', by rw [List.getElem?_set_ne hij]; exact h', hid'⟩
        obtain ⟨u', h1, h2, h3, h4⟩ := ih (u.set j sq) e (cs ++ [⟨sq.id, sq, ru⟩]) hlen' hids'
        refine ⟨u', ?_, h2, h3, ?_⟩
        · rw [h1, List.filter_cons, if_neg (by simp [habs])]
        · intro i q hq hnot
          have hij : j ≠ i := by
            intro hji; subst hji
            have hrq : r = q := by rw [hr] at hq; injection hq
            exact hnot sq (List.mem_cons_self _ _) (by rw [← hrq, hrid])
          rw [h4 i q hq (fun sq' h' => hnot sq' (List.mem_cons_of_mem _ h')),
            List.getElem?_set_ne hij]
      · have hstep : mergeStep (findLastIdx qs) (u ++ e, cs) sq
            = (u.set j { ru with dirty := false, src := "server" } ++ e, cs) := by
          simp only [mergeStep, hfind, hloc]
          rw [if_neg hdif, set_append_left u e j _ hju]
        rw [hstep]
        have hlen' : (u.set j { ru with dirty := false, src := "server" }).length = qs.length := by
          simp [hlen]
        have hids' : ∀ (i : Nat) (q : Record), qs[i]? = some q →
            ∃ r', (u.set j { ru with dirty := false, src := "server" })[i]? = some r' ∧ r'.id = q.id := by
          intro i q hq
          by_cases hij : j = i
          · subst hij
            obtain rfl : r = q := by rw [hr] at hq; injection hq
            refine ⟨{ ru with dirty := false, src := "server" }, ?_, hruid⟩
            rw [List.getElem?_set_self', hru]
            rfl
          · obtain ⟨r', h', hid'⟩ := hids i q hq
            exact ⟨r', by rw [List.getElem?_set_ne hij]; exact h', hid'⟩
        obtain ⟨u', h1, h2, h3, h4⟩ := ih (u.set j _) e cs hlen' hids'
        refine ⟨u', ?_, h2, h3, ?_⟩
        · rw [h1, List.filter_cons, if_neg (by simp [habs])]
        · intro i q hq hnot
          have hij : j ≠ i := by
            intro hji; subst hji
            have hrq : r = q := by rw [hr] at hq; injection hq
            exact hnot sq (List.mem_cons_self _ _) (by rw [← hrq, hrid])
          rw [h4 i q hq (fun sq' h' => hnot sq' (List.mem_cons_of_mem _ h')),
            List.getElem?_set_ne hij]

theorem merge_frame_core (snap qs : List Record) :
    ∃ u', (mergeServerIntoLocal snap qs).1 = u' ++ snap.filter (absentFrom qs)
      ∧ u'.length = qs.length
      ∧ (∀ (i : Nat) (q : Record), qs[i]? = some q → ∃ r, u'[i]? = some r ∧ r.id = q.id)
      ∧ (∀ (i : Nat) (q : Record), qs[i]? = some q → (∀ sq ∈ snap, sq.id ≠ q.id) →
          u'[i]? = some q) := by
  obtain ⟨u', h1, h2, h3, h4⟩ :=
    mergeFold_frame qs snap qs [] [] rfl (fun i q hq => ⟨q, hq, rfl⟩)
  simp only [List.append_nil, List.nil_append] at h1
  exact ⟨u', h1, h2, h3, fun i q hq hnot => (h4 i q hq hnot).trans hq⟩

theorem nodup_id_unique {qs : List Record} (hnd : (qs.map Record.id).Nodup)
    {i j : Nat} {q r : Record} (hi : qs[i]? = some q) (hj : qs[j]? = some r)
    (hid : q.id = r.id) : i = j := by
  have hi' : (qs.map Record.id)[i]? = some q.id := by
    rw [List.getElem?_map, hi]; rfl
  have hj' : (qs.map Record.id)[j]? = some r.id := by
    rw [List.getElem?_map, hj]; rfl
  refine List.getElem?_inj ?_ hnd ?_
  · rw [List.length_map]; exact (List.getElem?_eq_some.mp hi).1
  · rw [hi', hj', hid]

theorem find?_id_of_nodup {qs : List Record} (hnd : (qs.map Record.id).Nodup)
    {r : Record} (hmem : r ∈ qs) (s : String) (hid : r.id = s) :
    qs.find? (fun q => q.id == s) = some r := by
  cases hf : qs.find? (fun q => q.id == s) with
  | none =>
    rw [List.find?_eq_none] at hf
    exact absurd (by simp [hid]) (hf r hmem)
  | some r' =>
    have hmem' : r' ∈ qs := List.mem_of_find?_eq_some hf
    have hid' : r'.id = s := by simpa using List.find?_some hf
    have : r' = r := List.inj_on_of_nodup_map hnd hmem' hmem (by rw [hid', hid])
    rw [this]

theorem find?_id_eq_none (qs : List Record) (s : String)
    (h : ∀ q ∈ qs, q.id ≠ s) : qs.find? (fun q => q.id == s) = none := by
  rw [List.find?_eq_none]
  intro q hq
  simp [h q hq]

theorem applyServer_extend (done : List Record) (sq q : Record)
    (h : q.id ≠ sq.id) : applyServer (done ++ [sq]) q = applyServer done q := by
  rw [applyServer, applyServer, List.find?_append]
  have : List.find? (fun sq' => sq'.id == q.id) [sq] = none := by
    have : (sq.id == q.id) = false := beq_false_of_ne (Ne.symm h)
    simp [List.find?, this]
  rw [this]
  cases List.find? (fun sq' => sq'.id == q.id) done <;> rfl

theorem mergeFold_spec (qs : List Record) (hqs : (qs.map Record.id).Nodup) :
    ∀ (snap : List Record), ∀ (done : List Record) (cs : List Conflict),
    ((done ++ snap).map Record.id).Nodup →
    snap.foldl (mergeStep (findLastIdx qs))
      (qs.map (applyServer done) ++ done.filter (absentFrom qs), cs)
    = (qs.map (applyServer (done ++ snap)) ++ (done ++ snap).filter (absentFrom qs),
       cs ++ conflictsSpec snap qs) := by
  intro snap
  induction snap with
  | nil =>
    intro done cs _
    simp [conflictsSpec]
  | cons sq rest ih =>
    intro done cs hnd
    have hnd' : (((done ++ [sq]) ++ rest).map Record.id).Nodup := by
      rw [← List.append_cons]; exact hnd
    have hdone_sq : ∀ d ∈ done, d.id ≠ sq.id := by
      rw [List.map_append, List.nodup_append] at hnd
      intro d hd hde
      exact hnd.2.2 (List.mem_map_of_mem _ hd) (by rw [hde]; simp)
    rw [List.foldl_cons]
    cases hfind : findLastIdx qs sq.id with
    | none =>
      have hqs_sq : ∀ q ∈ qs, q.id ≠ sq.id := (findLastIdx_eq_none_iff qs sq.id).mp hfind
      have habs : absentFrom qs sq = true := (absentFrom_eq_true_iff qs sq).mpr hqs_sq
      have hA : qs.map (applyServer (done ++ [sq])) = qs.map (applyServer done) :=
        List.map_congr_left (fun q hq => applyServer_extend done sq q (hqs_sq q hq))
      have hB : (done ++ [sq]).filter (absentFrom qs)
          = done.filter (absentFrom qs) ++ [sq] := by
        rw [List.filter_append]
        simp [habs]
      have hstep : mergeStep (findLastIdx qs)
          (qs.map (applyServer done) ++ done.filter (absentFrom qs), cs) sq
          = (qs.map (applyServer (done ++ [sq]))
              ++ (done ++ [sq]).filter (absentFrom qs), cs) := by
        simp only [mergeStep, hfind, hA, hB, List.append_assoc]
      have hcs : conflictsSpec (sq :: rest) qs = conflictsSpec rest qs := by
        simp only [conflictsSpec, List.filterMap_cons, find?_id_eq_none qs sq.id hqs_sq]
      have hih := ih (done ++ [sq]) cs hnd'
      rw [hstep, List.append_cons done sq rest, hcs, hih]
    | some i =>
      obtain ⟨r, hr, hrid⟩ := findLastIdx_some qs sq.id i hfind
      have hilen : i < qs.length := (List.getElem?_eq_some.mp hr).1
      have hrmem : r ∈ qs := List.getElem?_mem hr
      have hdone_r : List.find? (fun d => d.id == r.id) done = none :=
        find?_id_eq_none done r.id (fun d hd => by rw [hrid]; exact hdone_sq d hd)
      have hloc : (qs.map (applyServer done) ++ done.filter (absentFrom qs)).getD i default
          = r := by
        rw [List.getD_eq_getElem?_getD,
          List.getElem?_append_left (by rw [List.length_map]; exact hilen),
          List.getElem?_map, hr]
        show (applyServer done r) = r
        rw [applyServer, hdone_r]
      have habs : absentFrom qs sq = false := by
        rw [← Bool.not_eq_true, absentFrom_eq_true_iff]
        push_neg
        exact ⟨r, hrmem, by rw [hrid]⟩
      have hBfilter : (done ++ [sq]).filter (absentFrom qs)
          = done.filter (absentFrom qs) := by
        rw [List.filter_append]
        simp [habs]
      have hfind_ds : List.find? (fun d => d.id == r.id) (done ++ [sq]) = some sq := by
        rw [List.find?_append, hdone_r]
        simp [List.find?, hrid]
      have hmapset : ∀ (v : Record), applyServer (done ++ [sq]) r = v →
          (qs.map (applyServer done)).set i v = qs.map (applyServer (done ++ [sq])) := by
        intro v hv
        apply List.ext_getElem?
        intro n
        by_cases hn : i = n
        · subst hn
          rw [List.getElem?_set_self', List.getElem?_map, List.getElem?_map, hr]
          show Function.const Record v <$> some (applyServer done r)
            = some (applyServer (done ++ [sq]) r)
          rw [hv]
          rfl
        · rw [List.getElem?_set_ne hn, List.getElem?_map, List.getElem?_map]
          cases hq : qs[n]? with
          | none => rfl
          | some q =>
            show some (applyServer done q) = some (applyServer (done ++ [sq]) q)
            have hqid : q.id ≠ sq.id := by
              intro he
              exact hn (nodup_id_unique hqs hr hq (by rw [hrid, he]))
            rw [applyServer_extend done sq q hqid]
      by_cases hdif : r.text ≠ sq.text ∨ r.category ≠ sq.category
      · have hcond : (r.text == sq.text && r.category == sq.category) = false := by
          rcases hdif with h | h
          · rw [beq_false_of_ne h, Bool.false_and]
          · rw [beq_false_of_ne h, Bool.and_false]
        have happly : applyServer (done ++ [sq]) r = sq := by
          rw [applyServer, hfind_ds]
          simp [hcond]
        have hstep : mergeStep (findLastIdx qs)
            (qs.map (applyServer done) ++ done.filter (absentFrom qs), cs) sq
            = (qs.map (applyServer (done ++ [sq]))
                ++ (done ++ [sq]).filter (absentFrom qs),
               cs ++ [⟨sq.id, sq, r⟩]) := by
          simp only [mergeStep, hfind, hloc]
          rw [if_pos hdif,
            set_append_left _ _ _ _ (by rw [List.length_map]; exact hilen),
            hmapset sq happly, hBfilter]
        have hcs : conflictsSpec (sq :: rest) qs
            = ⟨sq.id, sq, r⟩ :: conflictsSpec rest qs := by
          simp only [conflictsSpec, List.filterMap_cons,
            find?_id_of_nodup hqs hrmem sq.id hrid, hcond]
          simp
        have hih := ih (done ++ [sq]) (cs ++ [(⟨sq.id, sq, r⟩ : Conflict)]) hnd'
        rw [hstep, List.append_cons done sq rest, hcs, hih,
          List.append_assoc cs _ _, List.singleton_append]
      · have heq : r.text = sq.text ∧ r.category = sq.category := by
          push_neg at hdif
          exact hdif
        have hcond : (r.text == sq.text && r.category == sq.category) = true := by
          rw [beq_iff_eq.mpr heq.1, beq_iff_eq.mpr heq.2, Bool.and_self]
        have happly : applyServer (done ++ [sq]) r
            = { r with dirty := false, src := "server" } := by
          rw [applyServer, hfind_ds]
          simp [hcond]
        have hstep : mergeStep (findLastIdx qs)
            (qs.map (applyServer done) ++ done.filter (absentFrom qs), cs) sq
            = (qs.map (applyServer (done ++ [sq]))
                ++ (done ++ [sq]).filter (absentFrom qs), cs) := by
          simp only [mergeStep, hfind, hloc]
          rw [if_neg hdif,
            set_append_left _ _ _ _ (by rw [List.length_map]; exact hilen),
            hmapset _ happly, hBfilter]
        have hcs : conflictsSpec (sq :: rest) qs = conflictsSpec rest qs := by
          simp only [conflictsSpec, List.filterMap_cons,
            find?_id_of_nodup hqs hrmem sq.id hrid, hcond]
          simp
        have hih := ih (done ++ [sq]) cs hnd'
        rw [hstep, List.append_cons done sq rest, hcs, hih]

theorem mergeServerIntoLocal_eq_spec (snap qs : List Record)
    (hqs : (qs.map Record.id).Nodup) (hsnap : (snap.map Record.id).Nodup) :
    mergeServerIntoLocal snap qs = (mergeStoreSpec snap qs, conflictsSpec snap qs) := by
  have hid : qs.map (applyServer []) = qs := by
    have : ∀ q ∈ qs, applyServer [] q = q := by
      intro q _
      rw [applyServer]
      rfl
    rw [List.map_congr_left this, List.map_id']
  have h := mergeFold_spec qs hqs snap [] [] (by simpa using hsnap)
  rw [hid] at h
  simp only [List.filter_nil, List.append_nil, List.nil_append] at h
  rw [mergeServerIntoLocal, h, mergeStoreSpec]

theorem applyServer_id (snap : List Record) (q : Record) :
    (applyServer snap q).id = q.id := by
  rw [applyServer]
  cases hf : snap.find? (fun sq => sq.id == q.id) with
  | none => rfl
  | some sq =>
    show (if (q.text == sq.text && q.category == sq.category) = true
        then { q with dirty := false, src := "server" } else sq).id = q.id
    have hid : sq.id = q.id := by simpa using List.find?_some hf
    by_cases h : (q.text == sq.text && q.category == sq.category) = true
    · rw [if_pos h]
    · rw [if_neg h]
      exact hid

theorem mergeStoreSpec_id_nodup (snap qs : List Record)
    (hqs : (qs.map Record.id).Nodup) (hsnap : (snap.map Record.id).Nodup) :
    ((mergeStoreSpec snap qs).map Record.id).Nodup := by
  rw [mergeStoreSpec, List.map_append, List.nodup_append]
  refine ⟨?_, ?_, ?_⟩
  · rw [List.map_map]
    have : qs.map (Record.id ∘ applyServer snap) = qs.map Record.id :=
      List.map_congr_left (fun q _ => applyServer_id snap q)
    rw [this]
    exact hqs
  · exact (((List.filter_sublist snap).map Record.id).nodup) hsnap
  · intro a ha hb
    rw [List.map_map] at ha
    obtain ⟨q, hq, hqa⟩ := List.mem_map.mp ha
    obtain ⟨s', hs', hsa⟩ := List.mem_map.mp hb
    have hfil := List.mem_filter.mp hs'
    have habs := (absentFrom_eq_true_iff qs s').mp hfil.2
    refine habs q hq ?_
    have hcomp : (Record.id ∘ applyServer snap) q = q.id := applyServer_id snap q
    rw [← hcomp, hqa, ← hsa]

theorem conflictsSpec_cons_none (sq : Record) (rest qs : List Record)
    (h : qs.find? (fun q => q.id == sq.id) = none) :
    conflictsSpec (sq :: rest) qs = conflictsSpec rest qs := by
  rw [conflictsSpec, List.filterMap_cons]
  have hval : (match qs.find? (fun q => q.id == sq.id) with
      | none => none
      | some q => if (q.text == sq.text && q.category == sq.category) = true
          then none else some (⟨sq.id, sq, q⟩ : Conflict)) = none := by
    rw [h]
  rw [hval]
  rfl

theorem conflictsSpec_cons_found_eq (sq : Record) (rest qs : List Record) (q0 : Record)
    (h : qs.find? (fun q => q.id == sq.id) = some q0)
    (hc : (q0.text == sq.text && q0.category == sq.category) = true) :
    conflictsSpec (sq :: rest) qs = conflictsSpec rest qs := by
  rw [conflictsSpec, List.filterMap_cons]
  have hval : (match qs.find? (fun q => q.id == sq.id) with
      | none => none
      | some q => if (q.text == sq.text && q.category == sq.category) = true
          then none else some (⟨sq.id, sq, q⟩ : Conflict)) = none := by
    rw [h]
    show (if (q0.text == sq.text && q0.category == sq.category) = true
        then none else some (⟨sq.id, sq, q0⟩ : Conflict)) = none
    rw [if_pos hc]
  rw [hval]
  rfl

theorem conflictsSpec_cons_found_diff (sq : Record) (rest qs : List Record) (q0 : Record)
    (h : qs.find? (fun q => q.id == sq.id) = some q0)
    (hc : ¬ (q0.text == sq.text && q0.category == sq.category) = true) :
    conflictsSpec (sq :: rest) qs = ⟨sq.id, sq, q0⟩ :: conflictsSpec rest qs := by
  rw [conflictsSpec, List.filterMap_cons]
  have hval : (match qs.find? (fun q => q.id == sq.id) with
      | none => none
      | some q => if (q.text == sq.text && q.category == sq.category) = true
          then none else some (⟨sq.id, sq, q⟩ : Conflict)) = some ⟨sq.id, sq, q0⟩ := by
    rw [h]
    show (if (q0.text == sq.text && q0.category == sq.category) = true
        then none else some (⟨sq.id, sq, q0⟩ : Conflict)) = some ⟨sq.id, sq, q0⟩
    rw [if_neg hc]
  rw [hval]
  rfl

theorem conflictsSpec_length (snap qs : List Record)
    (hqs : (qs.map Record.id).Nodup) :
    (conflictsSpec snap qs).length
      = (snap.filter (fun sq => qs.any (fun q =>
          q.id == sq.id && !(q.text == sq.text && q.category == sq.category)))).length := by
  induction snap with
  | nil => rfl
  | cons sq rest ih =>
    rw [List.filter_cons]
    cases hf : qs.find? (fun q => q.id == sq.id) with
    | none =>
      have hnone : ∀ q ∈ qs, q.id ≠ sq.id := by
        intro q hq he
        have := (List.find?_eq_none.mp hf) q hq
        simp [he] at this
      have hany : (qs.any (fun q =>
          q.id == sq.id && !(q.text == sq.text && q.category == sq.category))) = false := by
        rw [← Bool.not_eq_true, List.any_eq_true]
        rintro ⟨q, hq, hp⟩
        rw [Bool.and_eq_true] at hp
        exact hnone q hq (by simpa using hp.1)
      rw [conflictsSpec_cons_none sq rest qs hf, hany, if_neg Bool.false_ne_true]
      exact ih
    | some q0 =>
      have hq0mem : q0 ∈ qs := List.mem_of_find?_eq_some hf
      have hq0id : q0.id = sq.id := by simpa using List.find?_some hf
      by_cases hc : (q0.text == sq.text && q0.category == sq.category) = true
      · have hany : (qs.any (fun q =>
            q.id == sq.id && !(q.text == sq.text && q.category == sq.category))) = false := by
          rw [← Bool.not_eq_true, List.any_eq_true]
          rintro ⟨q, hq, hp⟩
          rw [Bool.and_eq_true] at hp
          have hqid : q.id = sq.id := by simpa using hp.1
          have hq0 : q = q0 := List.inj_on_of_nodup_map hqs hq hq0mem (by rw [hqid, hq0id])
          rw [hq0, hc] at hp
          simpa using hp.2
        rw [conflictsSpec_cons_found_eq sq rest qs q0 hf hc, hany,
          if_neg Bool.false_ne_true]
        exact ih
      · have hany : (qs.any (fun q =>
            q.id == sq.id && !(q.text == sq.text && q.category == sq.category))) = true := by
          rw [List.any_eq_true]
          refine ⟨q0, hq0mem, ?_⟩
          rw [Bool.and_eq_true]
          exact ⟨by simp [hq0id], by simp [hc]⟩
        rw [conflictsSpec_cons_found_diff sq rest qs q0 hf hc, hany, if_pos rfl]
        simp only [List.length_cons]
        rw [ih]

theorem conflictsSpec_mem (snap qs : List Record)
    (c : Conflict) (hc : c ∈ conflictsSpec snap qs) :
    c.server ∈ snap ∧ c.localSnap ∈ qs ∧ c.id = c.server.id
    ∧ c.localSnap.id = c.server.id
    ∧ (c.localSnap.text ≠ c.server.text ∨ c.localSnap.category ≠ c.server.category) := by
  rw [conflictsSpec, List.mem_filterMap] at hc
  obtain ⟨sq, hsq, hf⟩ := hc
  cases hfind : qs.find? (fun q => q.id == sq.id) with
  | none =>
    rw [hfind] at hf
    cases hf
  | some q =>
    rw [hfind] at hf
    have hf' : (if (q.text == sq.text && q.category == sq.category) = true
        then none else some (⟨sq.id, sq, q⟩ : Conflict)) = some c := hf
    by_cases hcond : (q.text == sq.text && q.category == sq.category) = true
    · rw [if_pos hcond] at hf'
      cases hf'
    · rw [if_neg hcond] at hf'
      obtain rfl : (⟨sq.id, sq, q⟩ : Conflict) = c := by injection hf'
      have hqid : q.id = sq.id := by simpa using List.find?_some hfind
      refine ⟨hsq, List.mem_of_find?_eq_some hfind, rfl, hqid, ?_⟩
      rw [Bool.and_eq_true, not_and_or] at hcond
      rcases hcond with h | h
      · exact Or.inl (by simpa using h)
      · exact Or.inr (by simpa using h)

theorem applyServer_found (snap : List Record) (q sq : Record)
    (hfq : snap.find? (fun s => s.id == q.id) = some sq) :
    applyServer snap q = if (q.text == sq.text && q.category == sq.category) = true
      then { q with dirty := false, src := "server" } else sq := by
  rw [applyServer, hfq]

theorem applyServer_not_found (snap : List Record) (q : Record)
    (h : snap.find? (fun s => s.id == q.id) = none) :
    applyServer snap q = q := by
  rw [applyServer, h]

theorem mergeStoreSpec_synced (snap qs : List Record)
    (hsnap : (snap.map Record.id).Nodup)
    (hclean : ∀ sq ∈ snap, sq.dirty = false ∧ sq.src = "server") :
    ∀ r ∈ mergeStoreSpec snap qs, ∀ sq ∈ snap, r.id = sq.id →
      r.text = sq.text ∧ r.category = sq.category ∧ r.dirty = false ∧ r.src = "server" := by
  intro r hr sq hsq hid
  rw [mergeStoreSpec, List.mem_append] at hr
  rcases hr with hr | hr
  · obtain ⟨q, hq, rfl⟩ := List.mem_map.mp hr
    have hqid : q.id = sq.id := by rw [← applyServer_id snap q, hid]
    have hfq : snap.find? (fun s => s.id == q.id) = some sq :=
      find?_id_of_nodup hsnap hsq q.id hqid.symm
    rw [applyServer_found snap q sq hfq]
    by_cases hc : (q.text == sq.text && q.category == sq.category) = true
    · rw [if_pos hc]
      rw [Bool.and_eq_true] at hc
      exact ⟨by simpa using hc.1, by simpa using hc.2, rfl, rfl⟩
    · rw [if_neg hc]
      exact ⟨rfl, rfl, (hclean sq hsq).1, (hclean sq hsq).2⟩
  · have hfil := List.mem_filter.mp hr
    have : r = sq := List.inj_on_of_nodup_map hsnap hfil.1 hsq hid
    subst this
    exact ⟨rfl, rfl, (hclean r hsq).1, (hclean r hsq).2⟩

theorem mergeStoreSpec_covers (snap qs : List Record) :
    ∀ sq ∈ snap, ∃ r ∈ mergeStoreSpec snap qs, r.id = sq.id := by
  intro sq hsq
  by_cases habs : absentFrom qs sq = true
  · exact ⟨sq, List.mem_append_right _ (List.mem_filter.mpr ⟨hsq, habs⟩), rfl⟩
  · have hex : ∃ q ∈ qs, q.id = sq.id := by
      by_contra hno
      push_neg at hno
      exact habs ((absentFrom_eq_true_iff qs sq).mpr hno)
    obtain ⟨q, hq, hqid⟩ := hex
    exact ⟨applyServer snap q, List.mem_append_left _ (List.mem_map_of_mem _ hq),
      by rw [applyServer_id, hqid]⟩

theorem merge_on_synced (snap l : List Record)
    (hcover : ∀ sq ∈ snap, ∃ r ∈ l, r.id = sq.id)
    (hsync : ∀ r ∈ l, ∀ sq ∈ snap, r.id = sq.id →
      r.text = sq.text ∧ r.category = sq.category ∧ r.dirty = false ∧ r.src = "server") :
    mergeStoreSpec snap l = l ∧ conflictsSpec snap l = [] := by
  constructor
  · rw [mergeStoreSpec]
    have hfil : snap.filter (absentFrom l) = [] := by
      rw [List.filter_eq_nil_iff]
      intro sq hsq habs
      obtain ⟨r, hr, hrid⟩ := hcover sq hsq
      exact (absentFrom_eq_true_iff l sq).mp habs r hr hrid
    rw [hfil, List.append_nil]
    have hident : ∀ r ∈ l, applyServer snap r = r := by
      intro r hr
      cases hf : snap.find? (fun s => s.id == r.id) with
      | none => exact applyServer_not_found snap r hf
      | some sq =>
        have hsqmem : sq ∈ snap := List.mem_of_find?_eq_some hf
        have hsqid : sq.id = r.id := by simpa using List.find?_some hf
        obtain ⟨ht, hcat, hd, hs⟩ := hsync r hr sq hsqmem hsqid.symm
        rw [applyServer_found snap r sq hf, if_pos (by rw [ht, hcat]; simp)]
        cases r
        simp_all
    rw [List.map_congr_left hident, List.map_id']
  · rw [conflictsSpec, List.filterMap_eq_nil_iff]
    intro sq hsq
    cases hf : l.find? (fun q => q.id == sq.id) with
    | none => rfl
    | some q =>
      have hqm : q ∈ l := List.mem_of_find?_eq_some hf
      have hqid : q.id = sq.id := by simpa using List.find?_some hf
      obtain ⟨ht, hcat, _, _⟩ := hsync q hqm sq hsq hqid
      show (if (q.text == sq.text && q.category == sq.category) = true then none
          else some (⟨sq.id, sq, q⟩ : Conflict)) = none
      rw [if_pos (by rw [ht, hcat]; simp)]

theorem pushPhaseFrom_getElem? (out : Nat → PushOutcome) (k : Nat)
    (qs : List Record) (i : Nat) :
    (pushPhaseFrom out k qs)[i]?
      = (qs[i]?).map (fun q => if q.dirty then applyPush (out (k + i)) q else q) := by
  induction qs generalizing k i with
  | nil => simp [pushPhaseFrom]
  | cons q t ih =>
    cases i with
    | zero => simp [pushPhaseFrom]
    | succ n =>
      rw [pushPhaseFrom, List.getElem?_cons_succ, List.getElem?_cons_succ, ih (k + 1) n]
      have hke : k + 1 + n = k + (n + 1) := by omega
      rw [hke]

theorem pushPhase_getElem? (out : Nat → PushOutcome) (qs : List Record) (i : Nat) :
    (pushPhase out qs)[i]?
      = (qs[i]?).map (fun q => if q.dirty then applyPush (out i) q else q) := by
  rw [pushPhase, pushPhaseFrom_getElem?, Nat.zero_add]

theorem pushPhase_length (out : Nat → PushOutcome) (qs : List Record) :
    (pushPhase out qs).length = qs.length := by
  rw [pushPhase]
  generalize 0 = k
  induction qs generalizing k with
  | nil => rfl
  | cons q t ih =>
    rw [pushPhaseFrom, List.length_cons, List.length_cons, ih]

/-- Spec section 8 scenario: one conflicting record — the server value is
applied and one conflict is logged holding the pre-merge local snapshot. -/
theorem scenario_single_conflict :
    mergeServerIntoLocal [⟨"local-1", "B", "X", false, "server"⟩]
      [⟨"local-1", "A", "X", false, "local"⟩]
    = ([⟨"local-1", "B", "X", false, "server"⟩],
       [⟨"local-1", ⟨"local-1", "B", "X", false, "server"⟩,
         ⟨"local-1", "A", "X", false, "local"⟩⟩]) := by
  decide

/-- Spec section 8 scenario: empty local store, two remote records — both are
inserted as-is and no conflict is produced. -/
theorem scenario_fresh_pull :
    mergeServerIntoLocal
      [⟨"srv-1", "t1", "Server", false, "server"⟩,
       ⟨"srv-2", "t2", "Server", false, "server"⟩] []
    = ([⟨"srv-1", "t1", "Server", false, "server"⟩,
        ⟨"srv-2", "t2", "Server", false, "server"⟩], []) := by
  decide

/-- Claim C1 (amended: the local store's ids and the pulled snapshot's ids are
required to be pairwise distinct — with a duplicated snapshot id the later
duplicate overwrites the earlier one, see the counterexample).  Server-wins
merge: for every remote record of the pulled snapshot whose id exists in the
local store with a differing text or category, after `mergeServerIntoLocal`
the stored record with that id carries exactly the server record's text and
category.  No timestamp enters the decision: the embedded merge consults only
`text` and `category`. -/
theorem server_wins_after_merge (snap qs : List Record)
    (hqs : (qs.map Record.id).Nodup) (hsnap : (snap.map Record.id).Nodup)
    (sq : Record) (hsq : sq ∈ snap) (lc : Record) (hlc : lc ∈ qs)
    (hid : lc.id = sq.id)
    (hdif : lc.text ≠ sq.text ∨ lc.category ≠ sq.category) :
    ∀ r ∈ (mergeServerIntoLocal snap qs).1, r.id = sq.id →
      r.text = sq.text ∧ r.category = sq.category := by
  rw [mergeServerIntoLocal_eq_spec snap qs hqs hsnap]
  intro r hr hrid
  rw [mergeStoreSpec, List.mem_append] at hr
  rcases hr with hr | hr
  · obtain ⟨q, hq, rfl⟩ := List.mem_map.mp hr
    have hqid : q.id = sq.id := by rw [← applyServer_id snap q, hrid]
    have hql : q = lc := List.inj_on_of_nodup_map hqs hq hlc (by rw [hqid, hid])
    subst hql
    have hfq : snap.find? (fun s => s.id == q.id) = some sq :=
      find?_id_of_nodup hsnap hsq q.id hqid.symm
    rw [applyServer_found snap q sq hfq]
    have hc : (q.text == sq.text && q.category == sq.category) = false := by
      rcases hdif with h | h
      · rw [beq_false_of_ne h, Bool.false_and]
      · rw [beq_false_of_ne h, Bool.and_false]
    rw [if_neg (by simp [hc])]
    exact ⟨rfl, rfl⟩
  · have hfil := List.mem_filter.mp hr
    have habs := (absentFrom_eq_true_iff qs r).mp hfil.2
    exact absurd (show lc.id = r.id by rw [hid, hrid]) (habs lc hlc)

/-- Claim C2 (amended: ids pairwise distinct on both sides, as for C1).
Conflict capture completeness: one call to `mergeServerIntoLocal` produces
exactly one `ConflictRecord` per remote record whose id existed in the
pre-merge store with a differing text or category, and every captured entry
holds a pre-merge store record as the local snapshot and the remote record as
the server version, sharing one id and genuinely differing. -/
theorem merge_conflict_capture (snap qs : List Record)
    (hqs : (qs.map Record.id).Nodup) (hsnap : (snap.map Record.id).Nodup) :
    (mergeServerIntoLocal snap qs).2.length
      = (snap.filter (fun sq => qs.any (fun q =>
          q.id == sq.id && !(q.text == sq.text && q.category == sq.category)))).length
    ∧ ∀ c ∈ (mergeServerIntoLocal snap qs).2,
        c.server ∈ snap ∧ c.localSnap ∈ qs ∧ c.id = c.server.id
        ∧ c.localSnap.id = c.server.id
        ∧ (c.localSnap.text ≠ c.server.text ∨ c.localSnap.category ≠ c.server.category) := by
  rw [mergeServerIntoLocal_eq_spec snap qs hqs hsnap]
  exact ⟨conflictsSpec_length snap qs hqs, fun c hc => conflictsSpec_mem snap qs c hc⟩

/-- Claim C3 (amended: ids pairwise distinct on both sides, and every snapshot
record already in server-normal form — `dirty = false`, `src = "server"`, the
shape `fetchQuotesFromServer` always produces).  Merge idempotence: running
`mergeServerIntoLocal` twice on the same snapshot with no mutation in between
yields zero conflicts on the second call and leaves the store unchanged. -/
theorem merge_idempotent (snap qs : List Record)
    (hqs : (qs.map Record.id).Nodup) (hsnap : (snap.map Record.id).Nodup)
    (hclean : ∀ sq ∈ snap, sq.dirty = false ∧ sq.src = "server") :
    (mergeServerIntoLocal snap (mergeServerIntoLocal snap qs).1).2 = []
    ∧ (mergeServerIntoLocal snap (mergeServerIntoLocal snap qs).1).1
        = (mergeServerIntoLocal snap qs).1 := by
  have h1 : (mergeServerIntoLocal snap qs).1 = mergeStoreSpec snap qs := by
    rw [mergeServerIntoLocal_eq_spec snap qs hqs hsnap]
  have hnd1 : ((mergeServerIntoLocal snap qs).1.map Record.id).Nodup := by
    rw [h1]
    exact mergeStoreSpec_id_nodup snap qs hqs hsnap
  have h2 := mergeServerIntoLocal_eq_spec snap (mergeServerIntoLocal snap qs).1 hnd1 hsnap
  have hcover : ∀ sq ∈ snap, ∃ r ∈ (mergeServerIntoLocal snap qs).1, r.id = sq.id := by
    rw [h1]
    exact mergeStoreSpec_covers snap qs
  have hsync : ∀ r ∈ (mergeServerIntoLocal snap qs).1, ∀ sq ∈ snap, r.id = sq.id →
      r.text = sq.text ∧ r.category = sq.category ∧ r.dirty = false ∧ r.src = "server" := by
    rw [h1]
    exact mergeStoreSpec_synced snap qs hsnap hclean
  obtain ⟨hstore, hconf⟩ :=
    merge_on_synced snap (mergeServerIntoLocal snap qs).1 hcover hsync
  constructor
  · rw [h2]
    exact hconf
  · rw [h2]
    exact hstore

/-- Claim C7 (amended: restricted to the merge upsert, and the pulled
snapshot's ids must be pairwise distinct; neither the push-acknowledgment
renaming in `postQuoteToServer` nor `mergeServerIntoLocal` on a snapshot with
repeated ids checks uniqueness).  If the store's ids are pairwise distinct and
the snapshot's ids are pairwise distinct, the store after `mergeServerIntoLocal`
still has pairwise distinct ids. -/
theorem merge_preserves_nodup (snap qs : List Record)
    (hqs : (qs.map Record.id).Nodup) (hsnap : (snap.map Record.id).Nodup) :
    ((mergeServerIntoLocal snap qs).1.map Record.id).Nodup := by
  rw [mergeServerIntoLocal_eq_spec snap qs hqs hsnap]
  exact mergeStoreSpec_id_nodup snap qs hqs hsnap

theorem server_wins_after_merge_witness :
    ((mergeServerIntoLocal
        [⟨"local-1", "B", "X", false, "server"⟩]
        [⟨"local-1", "A", "X", false, "local"⟩]).1.getD 0 default).text = "B"
    ∧ ((mergeServerIntoLocal
        [⟨"local-1", "B", "X", false, "server"⟩]
        [⟨"local-1", "A", "X", false, "local"⟩]).1.getD 0 default).category = "X" :=
  server_wins_after_merge
    [⟨"local-1", "B", "X", false, "server"⟩] [⟨"local-1", "A", "X", false, "local"⟩]
    (by decide) (by decide)
    ⟨"local-1", "B", "X", false, "server"⟩ (by decide)
    ⟨"local-1", "A", "X", false, "local"⟩ (by decide) rfl (by decide)
    ((mergeServerIntoLocal
        [⟨"local-1", "B", "X", false, "server"⟩]
        [⟨"local-1", "A", "X", false, "local"⟩]).1.getD 0 default)
    (by decide) (by decide)

/-- Claim C1 as stated is false when the pulled snapshot repeats an id: local
record a/"0" conflicts with remote a/"1", yet after the merge the store holds
text "2" — the later duplicate a/"2" overwrote it. -/
theorem server_wins_counterexample :
    ((⟨"a", "1", "X", false, "server"⟩ : Record)
        ∈ ([⟨"a", "1", "X", false, "server"⟩, ⟨"a", "2", "X", false, "server"⟩] : List Record))
    ∧ ((⟨"a", "0", "X", false, "local"⟩ : Record)
        ∈ ([⟨"a", "0", "X", false, "local"⟩] : List Record))
    ∧ ¬ (∀ r ∈ (mergeServerIntoLocal
          [⟨"a", "1", "X", false, "server"⟩, ⟨"a", "2", "X", false, "server"⟩]
          [⟨"a", "0", "X", false, "local"⟩]).1,
        r.id = "a" → r.text = "1" ∧ r.category = "X") := by
  decide

theorem merge_conflict_capture_witness :
    (mergeServerIntoLocal
        [⟨"local-1", "B", "X", false, "server"⟩]
        [⟨"local-1", "A", "X", false, "local"⟩]).2.length
      = (([⟨"local-1", "B", "X", false, "server"⟩] : List Record).filter
          (fun sq => ([⟨"local-1", "A", "X", false, "local"⟩] : List Record).any
            (fun q => q.id == sq.id
              && !(q.text == sq.text && q.category == sq.category)))).length :=
  (merge_conflict_capture
    [⟨"local-1", "B", "X", false, "server"⟩] [⟨"local-1", "A", "X", false, "local"⟩]
    (by decide) (by decide)).1

/-- Claim C2 as stated is false when the pulled snapshot repeats an id: with
local store [a/"0"] and snapshot [a/"1", a/"2" = a/"0"], only one remote record
differs from the pre-merge store, yet two conflicts are produced, and the
second one's local snapshot a/"1" is not a pre-merge store record. -/
theorem merge_conflict_capture_counterexample :
    (mergeServerIntoLocal
        [⟨"a", "1", "X", false, "server"⟩, ⟨"a", "0", "X", false, "server"⟩]
        [⟨"a", "0", "X", false, "local"⟩]).2.length = 2
    ∧ (([⟨"a", "1", "X", false, "server"⟩, ⟨"a", "0", "X", false, "server"⟩] : List Record).filter
        (fun sq => ([⟨"a", "0", "X", false, "local"⟩] : List Record).any
          (fun q => q.id == sq.id
            && !(q.text == sq.text && q.category == sq.category)))).length = 1
    ∧ ((mergeServerIntoLocal
        [⟨"a", "1", "X", false, "server"⟩, ⟨"a", "0", "X", false, "server"⟩]
        [⟨"a", "0", "X", false, "local"⟩]).2.getD 1 default).localSnap
        ∉ ([⟨"a", "0", "X", false, "local"⟩] : List Record) := by
  decide

theorem merge_idempotent_witness :
    (mergeServerIntoLocal [⟨"srv-1", "t", "Server", false, "server"⟩]
      (mergeServerIntoLocal [⟨"srv-1", "t", "Server", false, "server"⟩]
        [⟨"loc-1", "u", "C", true, "local"⟩]).1).2 = []
    ∧ (mergeServerIntoLocal [⟨"srv-1", "t", "Server", false, "server"⟩]
        (mergeServerIntoLocal [⟨"srv-1", "t", "Server", false, "server"⟩]
          [⟨"loc-1", "u", "C", true, "local"⟩]).1).1
      = (mergeServerIntoLocal [⟨"srv-1", "t", "Server", false, "server"⟩]
          [⟨"loc-1", "u", "C", true, "local"⟩]).1 :=
  merge_idempotent [⟨"srv-1", "t", "Server", false, "server"⟩]
    [⟨"loc-1", "u", "C", true, "local"⟩] (by decide) (by decide) (by decide)

/-- Claim C3 as stated (over arbitrary snapshots) is false: merging a snapshot
record with `dirty = true` into an empty store and merging again flips the
stored dirty flag from true to false on the second call, so the second call
changes the store even though it reports zero conflicts. -/
theorem merge_idempotent_counterexample :
    (mergeServerIntoLocal [⟨"a", "t", "c", true, "x"⟩]
        (mergeServerIntoLocal [⟨"a", "t", "c", true, "x"⟩] []).1).2 = []
    ∧ (mergeServerIntoLocal [⟨"a", "t", "c", true, "x"⟩]
        (mergeServerIntoLocal [⟨"a", "t", "c", true, "x"⟩] []).1).1
      ≠ (mergeServerIntoLocal [⟨"a", "t", "c", true, "x"⟩] []).1
    ∧ (((mergeServerIntoLocal [⟨"a", "t", "c", true, "x"⟩] []).1.getD 0 default).dirty = true)
    ∧ (((mergeServerIntoLocal [⟨"a", "t", "c", true, "x"⟩]
        (mergeServerIntoLocal [⟨"a", "t", "c", true, "x"⟩] []).1).1.getD 0 default).dirty
        = false) := by
  decide

theorem merge_preserves_nodup_witness :
    (((mergeServerIntoLocal [⟨"srv-1", "t", "Server", false, "server"⟩]
        [⟨"loc-1", "u", "C", true, "local"⟩]).1).map Record.id).Nodup :=
  merge_preserves_nodup [⟨"srv-1", "t", "Server", false, "server"⟩]
    [⟨"loc-1", "u", "C", true, "local"⟩] (by decide) (by decide)

/-- Claim C7 as stated is false: merging a snapshot that repeats an id into the
empty store leaves the store holding two records with id "a". -/
theorem merge_nodup_counterexample :
    ¬ (((mergeServerIntoLocal
        [⟨"a", "1", "X", false, "server"⟩, ⟨"a", "2", "X", false, "server"⟩] []).1).map
          Record.id).Nodup := by
  decide

/-- Claim C4 (amended: the merge's conflicts are not appended — the
`localStorage.setItem` call overwrites the durable conflict log with exactly
this merge's conflict list, and a merge with zero conflicts skips the write and
leaves the log unchanged). -/
theorem conflict_log_replacement (out : Nat → PushOutcome) (snap qs : List Record)
    (log : List Conflict) :
    ((mergeServerIntoLocal snap (pushPhase out qs)).2 ≠ [] →
      (syncQuotes out (some snap) ⟨qs, log⟩).1.conflictLog
        = (mergeServerIntoLocal snap (pushPhase out qs)).2)
    ∧ ((mergeServerIntoLocal snap (pushPhase out qs)).2 = [] →
      (syncQuotes out (some snap) ⟨qs, log⟩).1.conflictLog = log) := by
  constructor
  · intro h
    show updateConflictLog log (mergeServerIntoLocal snap (pushPhase out qs)).2
      = (mergeServerIntoLocal snap (pushPhase out qs)).2
    rw [updateConflictLog, if_neg h]
  · intro h
    show updateConflictLog log (mergeServerIntoLocal snap (pushPhase out qs)).2 = log
    rw [updateConflictLog, if_pos h]

theorem conflict_log_replacement_witness :
    (syncQuotes (fun _ => PushOutcome.fail)
        (some [⟨"a", "1", "X", false, "server"⟩])
        ⟨[⟨"a", "0", "X", false, "local"⟩],
         [⟨"z", ⟨"z", "s", "S", false, "server"⟩, ⟨"z", "l", "L", true, "local"⟩⟩]⟩).1.conflictLog
      = (mergeServerIntoLocal [⟨"a", "1", "X", false, "server"⟩]
          (pushPhase (fun _ => PushOutcome.fail) [⟨"a", "0", "X", false, "local"⟩])).2 :=
  (conflict_log_replacement (fun _ => PushOutcome.fail)
    [⟨"a", "1", "X", false, "server"⟩] [⟨"a", "0", "X", false, "local"⟩]
    [⟨"z", ⟨"z", "s", "S", false, "server"⟩, ⟨"z", "l", "L", true, "local"⟩⟩]).1 (by decide)

/-- Claim C4 as stated is false: an entry present in the durable conflict log
before a merge that produces one conflict is gone afterwards, because
`mergeServerIntoLocal` stores only the new conflict list. -/
theorem conflict_log_append_counterexample :
    (⟨"z", ⟨"z", "s", "S", false, "server"⟩, ⟨"z", "l", "L", true, "local"⟩⟩ : Conflict)
      ∉ (syncQuotes (fun _ => PushOutcome.fail)
          (some [⟨"a", "1", "X", false, "server"⟩])
          ⟨[⟨"a", "0", "X", false, "local"⟩],
           [⟨"z", ⟨"z", "s", "S", false, "server"⟩,
             ⟨"z", "l", "L", true, "local"⟩⟩]⟩).1.conflictLog := by
  decide

/-- Claim C5: push failure isolation.  During the PUSHING phase of one
`syncQuotes` cycle, a dirty record whose push fails keeps every field and stays
dirty at its position; the store keeps its length (no record is ever removed by
a failed push); every other dirty record whose own push succeeds is still
cleared, because `Promise.allSettled` attempts all pushes; and the cycle still
performs the PULLING fetch and the MERGING call on the pushed store. -/
theorem push_failure_isolation (out : Nat → PushOutcome) (qs : List Record)
    (i : Nat) (q : Record) (hq : qs[i]? = some q) (hd : q.dirty = true)
    (hf : out i = PushOutcome.fail) :
    (pushPhase out qs)[i]? = some q
    ∧ (pushPhase out qs).length = qs.length
    ∧ (∀ (j : Nat) (p : Record) (pid : String), qs[j]? = some p → p.dirty = true →
        out j = PushOutcome.success pid →
        ((pushPhase out qs)[j]?.map Record.dirty) = some false)
    ∧ (∀ (snap : List Record) (log : List Conflict),
        syncQuotes out (some snap) ⟨qs, log⟩
          = (⟨(mergeServerIntoLocal snap (pushPhase out qs)).1,
              updateConflictLog log (mergeServerIntoLocal snap (pushPhase out qs)).2⟩,
             false)) := by
  refine ⟨?_, pushPhase_length out qs, ?_, fun snap log => rfl⟩
  · rw [pushPhase_getElem?, hq]
    show some (if q.dirty = true then applyPush (out i) q else q) = some q
    rw [hd, hf]
    rfl
  · intro j p pid hp hpd hs
    rw [pushPhase_getElem?, hp]
    show some (Record.dirty (if p.dirty = true then applyPush (out j) p else p)) = some false
    rw [hpd, hs]
    rfl

theorem push_failure_isolation_witness :
    (pushPhase (fun j => if j = 0 then PushOutcome.fail else PushOutcome.success "7")
        [⟨"loc-1", "t", "c", true, "local"⟩, ⟨"loc-2", "u", "d", true, "local"⟩,
         ⟨"srv-3", "v", "e", false, "server"⟩])[0]?
      = some ⟨"loc-1", "t", "c", true, "local"⟩
    ∧ (pushPhase (fun j => if j = 0 then PushOutcome.fail else PushOutcome.success "7")
        [⟨"loc-1", "t", "c", true, "local"⟩, ⟨"loc-2", "u", "d", true, "local"⟩,
         ⟨"srv-3", "v", "e", false, "server"⟩]).length = 3
    ∧ ((pushPhase (fun j => if j = 0 then PushOutcome.fail else PushOutcome.success "7")
        [⟨"loc-1", "t", "c", true, "local"⟩, ⟨"loc-2", "u", "d", true, "local"⟩,
         ⟨"srv-3", "v", "e", false, "server"⟩])[1]?.map Record.dirty) = some false
    ∧ syncQuotes (fun j => if j = 0 then PushOutcome.fail else PushOutcome.success "7")
        (some [])
        ⟨[⟨"loc-1", "t", "c", true, "local"⟩, ⟨"loc-2", "u", "d", true, "local"⟩,
          ⟨"srv-3", "v", "e", false, "server"⟩], []⟩
      = (⟨(mergeServerIntoLocal []
            (pushPhase (fun j => if j = 0 then PushOutcome.fail else PushOutcome.success "7")
              [⟨"loc-1", "t", "c", true, "local"⟩, ⟨"loc-2", "u", "d", true, "local"⟩,
               ⟨"srv-3", "v", "e", false, "server"⟩])).1,
          updateConflictLog [] (mergeServerIntoLocal []
            (pushPhase (fun j => if j = 0 then PushOutcome.fail else PushOutcome.success "7")
              [⟨"loc-1", "t", "c", true, "local"⟩, ⟨"loc-2", "u", "d", true, "local"⟩,
               ⟨"srv-3", "v", "e", false, "server"⟩])).2⟩, false) := by
  have h := push_failure_isolation
    (fun j => if j = 0 then PushOutcome.fail else PushOutcome.success "7")
    [⟨"loc-1", "t", "c", true, "local"⟩, ⟨"loc-2", "u", "d", true, "local"⟩,
     ⟨"srv-3", "v", "e", false, "server"⟩]
    0 ⟨"loc-1", "t", "c", true, "local"⟩ (by decide) (by decide) (by decide)
  exact ⟨h.1, h.2.1,
    h.2.2.1 1 ⟨"loc-2", "u", "d", true, "local"⟩ "7" (by decide) (by decide) (by decide),
    h.2.2.2 [] []⟩

/-- Claim C6: dirty clears only on success.  A dirty record whose push
succeeds ends the PUSHING phase with `dirty = false`, and any record that was
not successfully pushed — its push failed, or it was clean and never pushed —
keeps its dirty flag unchanged. -/
theorem dirty_clears_on_success (out : Nat → PushOutcome) (qs : List Record)
    (i : Nat) (q : Record) (pid : String)
    (hq : qs[i]? = some q) (hd : q.dirty = true) (hs : out i = PushOutcome.success pid) :
    ((pushPhase out qs)[i]?.map Record.dirty) = some false
    ∧ (∀ (j : Nat) (p : Record), qs[j]? = some p →
        (out j = PushOutcome.fail ∨ p.dirty = false) →
        ((pushPhase out qs)[j]?.map Record.dirty) = some p.dirty) := by
  constructor
  · rw [pushPhase_getElem?, hq]
    show some (Record.dirty (if q.dirty = true then applyPush (out i) q else q)) = some false
    rw [hd, hs]
    rfl
  · intro j p hp hc
    rw [pushPhase_getElem?, hp]
    show some (Record.dirty (if p.dirty = true then applyPush (out j) p else p)) = some p.dirty
    rcases hc with hc | hc
    · rw [hc]
      cases hpd : p.dirty with
      | true =>
        show some p.dirty = some true
        exact congrArg some hpd
      | false =>
        show some p.dirty = some false
        exact congrArg some hpd
    · rw [hc]
      show some p.dirty = some false
      exact congrArg some hc

theorem dirty_clears_on_success_witness :
    ((pushPhase (fun _ => PushOutcome.success "9")
        [⟨"loc-1", "t", "c", true, "local"⟩,
         ⟨"srv-2", "v", "e", false, "server"⟩])[0]?.map Record.dirty) = some false
    ∧ ((pushPhase (fun _ => PushOutcome.success "9")
        [⟨"loc-1", "t", "c", true, "local"⟩,
         ⟨"srv-2", "v", "e", false, "server"⟩])[1]?.map Record.dirty) = some false := by
  have h := dirty_clears_on_success (fun _ => PushOutcome.success "9")
    [⟨"loc-1", "t", "c", true, "local"⟩, ⟨"srv-2", "v", "e", false, "server"⟩]
    0 ⟨"loc-1", "t", "c", true, "local"⟩ "9" (by decide) (by decide) (by decide)
  exact ⟨h.1, h.2 1 ⟨"srv-2", "v", "e", false, "server"⟩ (by decide) (Or.inr (by decide))⟩

/-- Claim C8: pull failure atomicity.  When the PULLING fetch fails
(`fetchResult = none`, modelling the rejected fetch), `syncQuotes` performs no
merge: the store holds exactly the values it had at the end of the PUSHING
phase (completed pushes stand), the conflict log is untouched, and the cycle
reports failure.  Nothing in the state blocks a next cycle. -/
theorem pull_failure_atomicity (out : Nat → PushOutcome) (st : SyncState) :
    (syncQuotes out none st).1.quotes = pushPhase out st.quotes
    ∧ (syncQuotes out none st).1.conflictLog = st.conflictLog
    ∧ (syncQuotes out none st).2 = true :=
  ⟨rfl, rfl, rfl⟩

/-- Claim C9 (amended: the code's rejection condition is narrower than the
spec's — a non-array input or a batch with no valid entry is rejected with the
store unchanged, but a mixed batch is partially applied: exactly its valid
entries are appended and the invalid ones are silently dropped). -/
theorem import_all_or_nothing (input : ImportInput) (qs : List Record) :
    (importFromJsonFile input qs = (qs, false)
      ∧ (input = ImportInput.notArray
         ∨ ∃ es, input = ImportInput.array es ∧ es.filterMap cleanEntry = []))
    ∨ (∃ es, input = ImportInput.array es ∧ es.filterMap cleanEntry ≠ []
        ∧ importFromJsonFile input qs = (qs ++ es.filterMap cleanEntry, true)) := by
  cases input with
  | notArray => exact Or.inl ⟨rfl, Or.inl rfl⟩
  | array es =>
    by_cases h : es.filterMap cleanEntry = []
    · refine Or.inl ⟨?_, Or.inr ⟨es, rfl, h⟩⟩
      show (if es.filterMap cleanEntry = [] then ((qs, false) : List Record × Bool)
        else (qs ++ es.filterMap cleanEntry, true)) = (qs, false)
      rw [if_pos h]
    · refine Or.inr ⟨es, rfl, h, ?_⟩
      show (if es.filterMap cleanEntry = [] then ((qs, false) : List Record × Bool)
        else (qs ++ es.filterMap cleanEntry, true)) = (qs ++ es.filterMap cleanEntry, true)
      rw [if_neg h]

/-- Claim C9 as stated is false: a malformed batch holding one valid and one
invalid entry is not rejected — the store changes, and only one of the two
entries is applied, so the import of a malformed batch is not atomic. -/
theorem import_atomicity_counterexample :
    specMalformedBatch
      (ImportInput.array [ImportEntry.valid "hello" "cat", ImportEntry.invalid])
    ∧ (importFromJsonFile
        (ImportInput.array [ImportEntry.valid "hello" "cat", ImportEntry.invalid]) []).1 ≠ []
    ∧ (importFromJsonFile
        (ImportInput.array [ImportEntry.valid "hello" "cat", ImportEntry.invalid]) []).1.length
      = 1 :=
  ⟨Or.inr ⟨_, rfl, by decide⟩, by decide, by decide⟩

/-- Claim C10: merge frame property.  One call to `mergeServerIntoLocal` never
removes a record: the store can only grow; every pre-existing record stays at its
position with its id (so the relative order of pre-existing records is preserved);
a pre-existing record whose id does not occur in the pulled snapshot keeps every
field, its dirty flag included; and the remote records whose id is absent from the
pre-merge store are appended at the end, in snapshot order. -/
theorem merge_frame_all (snap qs : List Record) :
    qs.length ≤ (mergeServerIntoLocal snap qs).1.length
    ∧ (∀ (i : Nat) (q : Record), qs[i]? = some q →
        ∃ r, (mergeServerIntoLocal snap qs).1[i]? = some r ∧ r.id = q.id)
    ∧ (∀ (i : Nat) (q : Record), qs[i]? = some q → (∀ sq ∈ snap, sq.id ≠ q.id) →
        (mergeServerIntoLocal snap qs).1[i]? = some q)
    ∧ (mergeServerIntoLocal snap qs).1.drop qs.length = snap.filter (absentFrom qs) := by
  obtain ⟨u', h1, h2, h3, h4⟩ := merge_frame_core snap qs
  have hlt : ∀ (i : Nat) (q : Record), qs[i]? = some q → i < u'.length := by
    intro i q hq
    exact h2 ▸ (List.getElem?_eq_some.mp hq).1
  refine ⟨?_, ?_, ?_, ?_⟩
  · rw [h1, List.length_append, ← h2]
    exact Nat.le_add_right _ _
  · intro i q hq
    obtain ⟨r, hr, hid⟩ := h3 i q hq
    exact ⟨r, by rw [h1, List.getElem?_append_left (hlt i q hq)]; exact hr, hid⟩
  · intro i q hq hnot
    rw [h1, List.getElem?_append_left (hlt i q hq)]
    exact h4 i q hq hnot
  · rw [h1, ← h2, List.drop_left]

theorem merge_frame_witness :
    2 ≤ (mergeServerIntoLocal
        [⟨"srv-9", "n", "Server", false, "server"⟩, ⟨"srv-5", "m", "Server", false, "server"⟩]
        [⟨"loc-1", "a", "A", true, "local"⟩,
         ⟨"srv-9", "o", "Server", false, "server"⟩]).1.length
    ∧ (mergeServerIntoLocal
        [⟨"srv-9", "n", "Server", false, "server"⟩, ⟨"srv-5", "m", "Server", false, "server"⟩]
        [⟨"loc-1", "a", "A", true, "local"⟩,
         ⟨"srv-9", "o", "Server", false, "server"⟩]).1[0]?
      = some ⟨"loc-1", "a", "A", true, "local"⟩
    ∧ (mergeServerIntoLocal
        [⟨"srv-9", "n", "Server", false, "server"⟩, ⟨"srv-5", "m", "Server", false, "server"⟩]
        [⟨"loc-1", "a", "A", true, "local"⟩,
         ⟨"srv-9", "o", "Server", false, "server"⟩]).1.drop 2
      = ([⟨"srv-9", "n", "Server", false, "server"⟩,
          ⟨"srv-5", "m", "Server", false, "server"⟩] : List Record).filter
          (absentFrom [⟨"loc-1", "a", "A", true, "local"⟩,
            ⟨"srv-9", "o", "Server", false, "server"⟩]) := by
  have h := merge_frame_all
    [⟨"srv-9", "n", "Server", false, "server"⟩, ⟨"srv-5", "m", "Server", false, "server"⟩]
    [⟨"loc-1", "a", "A", true, "local"⟩, ⟨"srv-9", "o", "Server", false, "server"⟩]
  exact ⟨h.1, h.2.2.1 0 ⟨"loc-1", "a", "A", true, "local"⟩ (by decide) (by decide), h.2.2.2⟩

end QuotesSync
